import Mathlib

/-!
Verification of the standings scoring engine of the survivor fantasy-draft
repository.  The engine is the pure function computeStandings(season,
contestants, picks) in the worker/app source: it scores each player's picks,
performs at most one alternate swap, awards winner/runner-up bonuses, and
returns a ranked standings list.

The definitions below are a shallow embedding of that function.  JS numbers
are modelled as Int, JS null/undefined as Option, JS objects used as string
maps as association lists (insertion order preserved, as Object.entries
does), and the JS Map built by contestantMap.set (last write wins) as a left
fold.  Array.prototype.sort with comparator (a, b) => b.total - a.total is
modelled as a stable descending insertion sort, as guaranteed by the
ECMAScript specification (sort stability is mandated since ES2019).
-/

/-- A roster member: name, final placement (null while still active), and an
optional tally of bonus events (event key to occurrence count). -/
structure Contestant where
  name : String
  placement : Option Int
  bonuses : Option (List (String × Int))
deriving Repr, DecidableEq, Inhabited

/-- Season configuration: total roster size and the scoring table
(bonus-event key to points, including the reserved winnerBonus and
runnerUpBonus keys). -/
structure Season where
  contestantCount : Int
  scoring : List (String × Int)
deriving Repr, DecidableEq, Inhabited

/-- One player's pick submission. -/
structure Player where
  name : String
  picks : List String
  alternates : List String
deriving Repr, DecidableEq, Inhabited

/-- A scored pick as it appears in a Standing. -/
structure ScoredPick where
  contestant : Option Contestant
  placement : Int
  bonus : Int
  total : Int
  swappedOut : Bool
deriving Repr, DecidableEq, Inhabited

/-- A scored alternate as it appears in a Standing. -/
structure ScoredAlt where
  contestant : Option Contestant
  placement : Int
  bonus : Int
  total : Int
  swappedIn : Bool
deriving Repr, DecidableEq, Inhabited

/-- One player's fully itemized standing. -/
structure Standing where
  name : String
  picks : List ScoredPick
  alternates : List ScoredAlt
  winnerBonus : Int
  runnerUpBonus : Int
  total : Int
deriving Repr, DecidableEq, Inhabited

/-- JS truthiness of an optional number: absent, null and 0 are falsy. -/
def truthyNum (v : Option Int) : Bool :=
  match v with
  | none => false
  | some x => x != 0

/-- contestantMap.get name, where the map is built by iterating the roster
and calling set (a later entry with the same name overrides an earlier
one). -/
def contestantLookup (contestants : List Contestant) (nm : String) : Option Contestant :=
  contestants.foldl (fun acc c => if c.name == nm then some c else acc) none

/-- placementPts: 0 for an absent contestant or a null placement, otherwise
contestantCount + 1 - placement. -/
def placementPts (cc : Int) (c : Option Contestant) : Int :=
  match c with
  | none => 0
  | some c =>
    match c.placement with
    | none => 0
    | some p => cc + 1 - p

/-- bonusPts: 0 for an absent contestant or absent tally, otherwise the sum
over the tally entries of count * scoring[key], skipping entries whose
scoring value is absent or falsy (the JS `if (scoring[key])` guard). -/
def bonusPts (sc : List (String × Int)) (c : Option Contestant) : Int :=
  match c with
  | none => 0
  | some c =>
    match c.bonuses with
    | none => 0
    | some bs =>
      bs.foldl
        (fun total kv =>
          if truthyNum (sc.lookup kv.1) then total + kv.2 * ((sc.lookup kv.1).getD 0)
          else total)
        0

/-- totalPts c = placementPts c + bonusPts c. -/
def totalPts (cc : Int) (sc : List (String × Int)) (c : Option Contestant) : Int :=
  placementPts cc c + bonusPts sc c

/-- Whether a pick slot holds a present, eliminated contestant (the JS guard
`c && c.placement != null`). -/
def isEliminated (c : Option Contestant) : Bool :=
  match c with
  | none => false
  | some c => c.placement.isSome

/-- One step of the worst-pick loop: the accumulator holds the current
(worstIdx, worstPts) or none when worstIdx is still -1 (worstPts
Infinity); slot i is taken when it is eliminated and its placement points
beat the current worst strictly. -/
def worstStep (cc : Int) (acc : Option (Nat × Int)) (i : Nat) (c : Option Contestant) :
    Option (Nat × Int) :=
  let pp := placementPts cc c
  let beats :=
    match acc with
    | none => true
    | some (_, wp) => decide (pp < wp)
  if isEliminated c && beats then some (i, pp) else acc

/-- The for-loop over pickContestants searching for the eliminated pick with
the lowest placement points (index i is the loop counter). -/
def worstLoop (cc : Int) : List (Option Contestant) → Nat → Option (Nat × Int) →
    Option (Nat × Int)
  | [], _, acc => acc
  | c :: rest, i, acc => worstLoop cc rest (i + 1) (worstStep cc acc i c)

/-- The for-loop over altContestants with break: the first alternate (from
index a) whose total strictly exceeds the target's total. -/
def altSearch (cc : Int) (sc : List (String × Int)) (target : Option Contestant) :
    Nat → List (Option Contestant) → Option Nat
  | _, [] => none
  | a, alt :: rest =>
    if totalPts cc sc alt > totalPts cc sc target then some a
    else altSearch cc sc target (a + 1) rest

/-- The swap search of computeStandings: none models swapIndex = -1; a pair
(swapIndex, swapAltIndex) models a found swap. -/
def findSwap (cc : Int) (sc : List (String × Int))
    (pickCs altCs : List (Option Contestant)) : Option (Nat × Nat) :=
  if altCs.isEmpty then none
  else
    match worstLoop cc pickCs 0 none with
    | none => none
    | some (w, _) =>
      match altSearch cc sc (pickCs.getD w none) 0 altCs with
      | none => none
      | some a => some (w, a)

/-- pickContestants.map((c, i) => ...): score every pick, marking index
swapIdx (when present) as swapped out; n is the index of the head. -/
def scorePicksFrom (cc : Int) (sc : List (String × Int)) (swapIdx : Option Nat) :
    Nat → List (Option Contestant) → List ScoredPick
  | _, [] => []
  | n, c :: rest =>
    { contestant := c
      placement := placementPts cc c
      bonus := bonusPts sc c
      total := totalPts cc sc c
      swappedOut := swapIdx == some n } :: scorePicksFrom cc sc swapIdx (n + 1) rest

/-- altContestants.map((c, a) => ...): score every alternate, marking index
swapAltIdx (when present) as swapped in. -/
def scoreAltsFrom (cc : Int) (sc : List (String × Int)) (swapAltIdx : Option Nat) :
    Nat → List (Option Contestant) → List ScoredAlt
  | _, [] => []
  | n, c :: rest =>
    { contestant := c
      placement := placementPts cc c
      bonus := bonusPts sc c
      total := totalPts cc sc c
      swappedIn := swapAltIdx == some n } :: scoreAltsFrom cc sc swapAltIdx (n + 1) rest

/-- The loop summing the totals of the picks that were not swapped out. -/
def sumActivePicks (l : List ScoredPick) : Int :=
  l.foldl (fun s p => if p.swappedOut then s else s + p.total) 0

/-- The loop summing the totals of the swapped-in alternates. -/
def sumActiveAlts (l : List ScoredAlt) : Int :=
  l.foldl (fun s a => if a.swappedIn then s + a.total else s) 0

/-- The activePicks array of computeStandings: contestants of the
non-swapped-out picks followed by contestants of the swapped-in
alternates. -/
def activeContestants (ps : List ScoredPick) (as_ : List ScoredAlt) :
    List (Option Contestant) :=
  (ps.filter (fun p => !p.swappedOut)).map (fun p => p.contestant)
    ++ (as_.filter (fun a => a.swappedIn)).map (fun a => a.contestant)

/-- One iteration of the winner/runner-up bonus loop: a null contestant is
skipped; otherwise scoring.winnerBonus is assigned when the contestant has
placement 1 and the configured value is truthy, and likewise
scoring.runnerUpBonus for placement 2. -/
def bonusStep (sc : List (String × Int)) (wr : Int × Int) (c : Option Contestant) :
    Int × Int :=
  match c with
  | none => wr
  | some c =>
    let w :=
      if c.placement == some 1 && truthyNum (sc.lookup "winnerBonus") then
        (sc.lookup "winnerBonus").getD 0
      else wr.1
    let r :=
      if c.placement == some 2 && truthyNum (sc.lookup "runnerUpBonus") then
        (sc.lookup "runnerUpBonus").getD 0
      else wr.2
    (w, r)

/-- The winner/runner-up bonus loop over the active contestants, starting
from winnerBonusPts = 0 and runnerUpBonusPts = 0. -/
def bonusLoop (sc : List (String × Int)) (l : List (Option Contestant)) : Int × Int :=
  l.foldl (bonusStep sc) (0, 0)

/-- The pick contestants of a player (names resolved through the roster
map; an unknown name resolves to none). -/
def pickContestantsOf (contestants : List Contestant) (player : Player) :
    List (Option Contestant) :=
  player.picks.map (contestantLookup contestants)

/-- The alternate contestants of a player. -/
def altContestantsOf (contestants : List Contestant) (player : Player) :
    List (Option Contestant) :=
  player.alternates.map (contestantLookup contestants)

/-- The body of the picks.map callback of computeStandings: builds one
player's Standing. -/
def scorePlayer (season : Season) (contestants : List Contestant) (player : Player) :
    Standing :=
  let cc := season.contestantCount
  let sc := season.scoring
  let pickCs := pickContestantsOf contestants player
  let altCs := altContestantsOf contestants player
  let swap := findSwap cc sc pickCs altCs
  let finalPicks := scorePicksFrom cc sc (swap.map (fun p => p.1)) 0 pickCs
  let activeAlts := scoreAltsFrom cc sc (swap.map (fun p => p.2)) 0 altCs
  let base := sumActivePicks finalPicks + sumActiveAlts activeAlts
  let wr := bonusLoop sc (activeContestants finalPicks activeAlts)
  { name := player.name
    picks := finalPicks
    alternates := activeAlts
    winnerBonus := wr.1
    runnerUpBonus := wr.2
    total := base + wr.1 + wr.2 }

/-- Insertion into a descending-by-total list: the element being inserted
was earlier in the original sequence than everything in the list, so on an
equal total it goes first (the stable behaviour ECMAScript guarantees for
sort with comparator (a, b) => b.total - a.total). -/
def insertStanding (x : Standing) : List Standing → List Standing
  | [] => [x]
  | y :: ys => if y.total ≤ x.total then x :: y :: ys else y :: insertStanding x ys

/-- Stable sort of the standings, descending by total. -/
def sortStandings : List Standing → List Standing
  | [] => []
  | x :: xs => insertStanding x (sortStandings xs)

/-- computeStandings: score every submission, then sort descending by total
(stably). -/
def computeStandings (season : Season) (contestants : List Contestant)
    (picks : List Player) : List Standing :=
  sortStandings (picks.map (scorePlayer season contestants))

/-!
Specification-side description of the swap-target search: a structurally
recursive function computing the first index attaining the minimum
placement points among eliminated picks, proved equal to the accumulator
loop of the source, and a predicate stating the claim's selection rule.
-/

/-- First index attaining the minimum placement points among the eliminated
picks of the list, together with those points (none when no pick is
eliminated). -/
def swapTargetSpec (cc : Int) : List (Option Contestant) → Option (Nat × Int)
  | [] => none
  | c :: rest =>
    match swapTargetSpec cc rest with
    | none => if isEliminated c then some (0, placementPts cc c) else none
    | some (j, p) =>
      if isEliminated c && decide (placementPts cc c ≤ p) then some (0, placementPts cc c)
      else some (j + 1, p)

/-- The claim's description of the swap target at index w: an eliminated
pick whose placement points are minimal among eliminated picks, and
strictly below those of every earlier eliminated pick. -/
def isSwapTargetAt (cc : Int) (pickCs : List (Option Contestant)) (w : Nat) : Prop :=
  w < pickCs.length ∧ isEliminated (pickCs.getD w none) = true ∧
  (∀ k, k < pickCs.length → isEliminated (pickCs.getD k none) = true →
    placementPts cc (pickCs.getD w none) ≤ placementPts cc (pickCs.getD k none)) ∧
  (∀ k, k < w → isEliminated (pickCs.getD k none) = true →
    placementPts cc (pickCs.getD w none) < placementPts cc (pickCs.getD k none))

theorem worstLoop_eq (cc : Int) (l : List (Option Contestant)) :
    ∀ (i : Nat) (acc : Option (Nat × Int)),
    worstLoop cc l i acc =
      match swapTargetSpec cc l, acc with
      | none, a => a
      | some (j, p), none => some (i + j, p)
      | some (j, p), some (k, wp) => if p < wp then some (i + j, p) else some (k, wp) := by
  induction l with
  | nil => intro i acc; rfl
  | cons c rest ih =>
    intro i acc
    show worstLoop cc rest (i + 1) (worstStep cc acc i c) = _
    rw [ih]
    cases hS : swapTargetSpec cc rest with
    | none =>
      cases hE : isEliminated c with
      | false =>
        cases acc with
        | none => simp [swapTargetSpec, worstStep, hS, hE]
        | some kw => simp [swapTargetSpec, worstStep, hS, hE]
      | true =>
        cases acc with
        | none => simp [swapTargetSpec, worstStep, hS, hE]
        | some kw =>
          obtain ⟨k, wp⟩ := kw
          simp only [swapTargetSpec, worstStep, hS, hE, Bool.true_and]
          by_cases h : placementPts cc c < wp
          · simp [h]
          · simp [h]
    | some jp =>
      obtain ⟨j, p⟩ := jp
      cases hE : isEliminated c with
      | false =>
        cases acc with
        | none =>
          simp [swapTargetSpec, worstStep, hS, hE, Nat.add_assoc]
          omega
        | some kw =>
          obtain ⟨k, wp⟩ := kw
          simp only [swapTargetSpec, worstStep, hS, hE, Bool.false_and, if_false]
          by_cases h : p < wp
          · simp [h, Nat.add_assoc]
            omega
          · simp [h]
      | true =>
        cases acc with
        | none =>
          simp only [swapTargetSpec, worstStep, hS, hE, Bool.true_and]
          by_cases h : placementPts cc c ≤ p
          · have h2 : ¬ p < placementPts cc c := by omega
            simp [h, h2]
          · have h2 : p < placementPts cc c := by omega
            simp [h, h2, Nat.add_assoc]
            omega
        | some kw =>
          obtain ⟨k, wp⟩ := kw
          simp only [swapTargetSpec, worstStep, hS, hE, Bool.true_and]
          by_cases hb : placementPts cc c < wp
          · by_cases h : placementPts cc c ≤ p
            · have h2 : ¬ p < placementPts cc c := by omega
              simp [h, h2, hb]
            · have h2 : p < placementPts cc c := by omega
              have h3 : p < wp := by omega
              simp [h, h2, h3, hb, Nat.add_assoc]
              omega
          · by_cases h : placementPts cc c ≤ p
            · have h2 : ¬ p < wp := by omega
              simp [h, h2, hb]
            · have h2 : p < placementPts cc c := by omega
              by_cases h3 : p < wp
              · simp [h, h2, h3, hb, Nat.add_assoc]
                omega
              · simp [h, h2, h3, hb]

theorem findWorst_eq (cc : Int) (l : List (Option Contestant)) :
    worstLoop cc l 0 none = swapTargetSpec cc l := by
  rw [worstLoop_eq]
  cases hS : swapTargetSpec cc l with
  | none => rfl
  | some jp => obtain ⟨j, p⟩ := jp; simp

theorem swapTargetSpec_none_iff (cc : Int) (l : List (Option Contestant)) :
    swapTargetSpec cc l = none ↔ ∀ c ∈ l, isEliminated c = false := by
  induction l with
  | nil => simp [swapTargetSpec]
  | cons c rest ih =>
    cases hS : swapTargetSpec cc rest with
    | none =>
      have hrest := ih.mp hS
      simp only [swapTargetSpec, hS, List.forall_mem_cons]
      split_ifs with hE
      · constructor
        · intro h; cases h
        · rintro ⟨h1, -⟩; rw [h1] at hE; cases hE
      · simp only [Bool.not_eq_true] at hE
        constructor
        · intro _; exact ⟨hE, hrest⟩
        · intro _; rfl
    | some jp =>
      obtain ⟨j, p⟩ := jp
      have hrest : ¬ ∀ x ∈ rest, isEliminated x = false := by
        intro hall
        have h0 := ih.mpr hall
        rw [h0] at hS
        cases hS
      simp only [swapTargetSpec, hS, List.forall_mem_cons]
      constructor
      · intro h
        split_ifs at h
      · rintro ⟨-, h2⟩
        exact absurd h2 hrest

theorem swapTargetSpec_some (cc : Int) (l : List (Option Contestant)) (j : Nat) (p : Int)
    (h : swapTargetSpec cc l = some (j, p)) :
    j < l.length ∧ isEliminated (l.getD j none) = true ∧
    p = placementPts cc (l.getD j none) ∧
    (∀ k, k < l.length → isEliminated (l.getD k none) = true →
      p ≤ placementPts cc (l.getD k none)) ∧
    (∀ k, k < j → isEliminated (l.getD k none) = true →
      p < placementPts cc (l.getD k none)) := by
  induction l generalizing j p with
  | nil => cases h
  | cons c rest ih =>
    cases hS : swapTargetSpec cc rest with
    | none =>
      simp only [swapTargetSpec, hS] at h
      have hrest := (swapTargetSpec_none_iff cc rest).mp hS
      split_ifs at h with hE
      · simp only [Option.some.injEq, Prod.mk.injEq] at h
        obtain ⟨hj, hp⟩ := h
        subst hj; subst hp
        refine ⟨by simp, by simpa using hE, by simp, ?_, ?_⟩
        · intro k hk hkE
          cases k with
          | zero => simp
          | succ k =>
            exfalso
            rw [List.getD_cons_succ] at hkE
            have hklen : k < rest.length := by simpa using hk
            have hmem : rest.getD k none ∈ rest := by
              rw [List.getD_eq_getElem _ _ hklen]
              exact List.getElem_mem hklen
            rw [hrest _ hmem] at hkE
            cases hkE
        · intro k hk
          omega
    | some jp =>
      obtain ⟨j0, p0⟩ := jp
      simp only [swapTargetSpec, hS] at h
      obtain ⟨hj0len, hj0E, hp0, hmin, hfirst⟩ := ih j0 p0 hS
      split_ifs at h with hcond
      · obtain ⟨hE, hle⟩ := Bool.and_eq_true_iff.mp hcond
        have hle2 : placementPts cc c ≤ p0 := of_decide_eq_true hle
        simp only [Option.some.injEq, Prod.mk.injEq] at h
        obtain ⟨hj, hp⟩ := h
        subst hj; subst hp
        refine ⟨by simp, by simpa using hE, by simp, ?_, ?_⟩
        · intro k hk hkE
          cases k with
          | zero => simp
          | succ k =>
            rw [List.getD_cons_succ] at hkE ⊢
            have := hmin k (by simpa using hk) hkE
            omega
        · intro k hk
          omega
      · simp only [Option.some.injEq, Prod.mk.injEq] at h
        obtain ⟨hj, hp⟩ := h
        subst hj; subst hp
        have hnot : isEliminated c = false ∨ p0 < placementPts cc c := by
          by_cases hE : isEliminated c = true
          · right
            by_contra hlt
            push_neg at hlt
            exact hcond (by simp [hE]; omega)
          · left
            exact Bool.not_eq_true _ ▸ hE
        refine ⟨by simpa using hj0len, ?_, ?_, ?_, ?_⟩
        · rw [List.getD_cons_succ]; exact hj0E
        · rw [List.getD_cons_succ]; exact hp0
        · intro k hk hkE
          cases k with
          | zero =>
            rw [List.getD_cons_zero] at hkE ⊢
            rcases hnot with hF | hlt
            · rw [hF] at hkE; cases hkE
            · omega
          | succ k =>
            rw [List.getD_cons_succ] at hkE ⊢
            exact hmin k (by simpa using hk) hkE
        · intro k hk hkE
          cases k with
          | zero =>
            rw [List.getD_cons_zero] at hkE ⊢
            rcases hnot with hF | hlt
            · rw [hF] at hkE; cases hkE
            · omega
          | succ k =>
            rw [List.getD_cons_succ] at hkE ⊢
            exact hfirst k (by omega) hkE

theorem isSwapTargetAt_of_spec (cc : Int) (l : List (Option Contestant)) (j : Nat) (p : Int)
    (h : swapTargetSpec cc l = some (j, p)) : isSwapTargetAt cc l j := by
  obtain ⟨h1, h2, h3, h4, h5⟩ := swapTargetSpec_some cc l j p h
  exact ⟨h1, h2, fun k hk hkE => h3 ▸ h4 k hk hkE, fun k hk hkE => h3 ▸ h5 k hk hkE⟩

theorem isSwapTargetAt_unique (cc : Int) (l : List (Option Contestant)) (w1 w2 : Nat)
    (h1 : isSwapTargetAt cc l w1) (h2 : isSwapTargetAt cc l w2) : w1 = w2 := by
  obtain ⟨h1len, h1E, h1min, h1first⟩ := h1
  obtain ⟨h2len, h2E, h2min, h2first⟩ := h2
  rcases Nat.lt_trichotomy w1 w2 with h | h | h
  · have ha := h2first w1 h h1E
    have hb := h1min w2 h2len h2E
    omega
  · exact h
  · have ha := h1first w2 h h2E
    have hb := h2min w1 h1len h1E
    omega

theorem spec_of_isSwapTargetAt (cc : Int) (l : List (Option Contestant)) (w : Nat)
    (h : isSwapTargetAt cc l w) :
    swapTargetSpec cc l = some (w, placementPts cc (l.getD w none)) := by
  cases hS : swapTargetSpec cc l with
  | none =>
    have hall := (swapTargetSpec_none_iff cc l).mp hS
    obtain ⟨hlen, hE, -, -⟩ := h
    have hmem : l.getD w none ∈ l := by
      rw [List.getD_eq_getElem _ _ hlen]
      exact List.getElem_mem hlen
    rw [hall _ hmem] at hE
    cases hE
  | some jp =>
    obtain ⟨j, p⟩ := jp
    have hj := isSwapTargetAt_of_spec cc l j p hS
    have hp := (swapTargetSpec_some cc l j p hS).2.2.1
    have := isSwapTargetAt_unique cc l j w hj h
    subst this
    rw [hp]

theorem altSearch_none_iff (cc : Int) (sc : List (String × Int)) (target : Option Contestant)
    (l : List (Option Contestant)) : ∀ a0 : Nat,
    altSearch cc sc target a0 l = none ↔
      ∀ alt ∈ l, ¬ totalPts cc sc target < totalPts cc sc alt := by
  induction l with
  | nil => intro a0; simp [altSearch]
  | cons alt rest ih =>
    intro a0
    simp only [altSearch, List.forall_mem_cons]
    split_ifs with hcond
    · simp only [gt_iff_lt] at hcond
      constructor
      · intro h; cases h
      · rintro ⟨h1, -⟩; exact absurd hcond h1
    · simp only [gt_iff_lt] at hcond
      rw [ih (a0 + 1)]
      constructor
      · intro h; exact ⟨hcond, h⟩
      · rintro ⟨-, h⟩; exact h

theorem altSearch_some (cc : Int) (sc : List (String × Int)) (target : Option Contestant)
    (l : List (Option Contestant)) : ∀ (a0 a : Nat),
    altSearch cc sc target a0 l = some a →
    ∃ d, a = a0 + d ∧ d < l.length ∧
      totalPts cc sc target < totalPts cc sc (l.getD d none) ∧
      ∀ b, b < d → ¬ totalPts cc sc target < totalPts cc sc (l.getD b none) := by
  induction l with
  | nil => intro a0 a h; cases h
  | cons alt rest ih =>
    intro a0 a h
    simp only [altSearch] at h
    split_ifs at h with hcond
    · simp only [Option.some.injEq] at h
      subst h
      refine ⟨0, by omega, by simp, by simpa using hcond, ?_⟩
      intro b hb
      omega
    · obtain ⟨d, hd, hdlen, hdP, hdfirst⟩ := ih (a0 + 1) a h
      refine ⟨d + 1, by omega, by simpa using hdlen, by simpa using hdP, ?_⟩
      intro b hb
      cases b with
      | zero =>
        rw [List.getD_cons_zero]
        simpa using hcond
      | succ b =>
        rw [List.getD_cons_succ]
        exact hdfirst b (by omega)

theorem scorePicksFrom_length (cc : Int) (sc : List (String × Int)) (si : Option Nat)
    (l : List (Option Contestant)) : ∀ n, (scorePicksFrom cc sc si n l).length = l.length := by
  induction l with
  | nil => intro n; rfl
  | cons c rest ih => intro n; simp [scorePicksFrom, ih]

theorem scoreAltsFrom_length (cc : Int) (sc : List (String × Int)) (si : Option Nat)
    (l : List (Option Contestant)) : ∀ n, (scoreAltsFrom cc sc si n l).length = l.length := by
  induction l with
  | nil => intro n; rfl
  | cons c rest ih => intro n; simp [scoreAltsFrom, ih]

theorem scorePicksFrom_getD (cc : Int) (sc : List (String × Int)) (si : Option Nat)
    (l : List (Option Contestant)) : ∀ n i, i < l.length →
    (scorePicksFrom cc sc si n l).getD i default =
      { contestant := l.getD i none
        placement := placementPts cc (l.getD i none)
        bonus := bonusPts sc (l.getD i none)
        total := totalPts cc sc (l.getD i none)
        swappedOut := si == some (n + i) } := by
  induction l with
  | nil => intro n i h; cases h
  | cons c rest ih =>
    intro n i h
    cases i with
    | zero => simp [scorePicksFrom]
    | succ i =>
      simp only [scorePicksFrom, List.getD_cons_succ]
      rw [ih (n + 1) i (by simpa using h)]
      have : n + 1 + i = n + (i + 1) := by omega
      rw [this]

theorem scoreAltsFrom_getD (cc : Int) (sc : List (String × Int)) (si : Option Nat)
    (l : List (Option Contestant)) : ∀ n i, i < l.length →
    (scoreAltsFrom cc sc si n l).getD i default =
      { contestant := l.getD i none
        placement := placementPts cc (l.getD i none)
        bonus := bonusPts sc (l.getD i none)
        total := totalPts cc sc (l.getD i none)
        swappedIn := si == some (n + i) } := by
  induction l with
  | nil => intro n i h; cases h
  | cons c rest ih =>
    intro n i h
    cases i with
    | zero => simp [scoreAltsFrom]
    | succ i =>
      simp only [scoreAltsFrom, List.getD_cons_succ]
      rw [ih (n + 1) i (by simpa using h)]
      have : n + 1 + i = n + (i + 1) := by omega
      rw [this]

theorem mem_scorePicksFrom (cc : Int) (sc : List (String × Int)) (si : Option Nat)
    (l : List (Option Contestant)) : ∀ n q, q ∈ scorePicksFrom cc sc si n l →
    ∃ i, i < l.length ∧ q.swappedOut = (si == some (n + i)) := by
  induction l with
  | nil => intro n q h; cases h
  | cons c rest ih =>
    intro n q h
    rcases List.mem_cons.mp h with h1 | h2
    · refine ⟨0, by simp, ?_⟩
      rw [h1]
      simp
    · obtain ⟨i, hi, hq⟩ := ih (n + 1) q h2
      refine ⟨i + 1, by simpa using hi, ?_⟩
      rw [hq]
      have h3 : n + 1 + i = n + (i + 1) := by omega
      rw [h3]

theorem mem_scoreAltsFrom (cc : Int) (sc : List (String × Int)) (si : Option Nat)
    (l : List (Option Contestant)) : ∀ n q, q ∈ scoreAltsFrom cc sc si n l →
    ∃ i, i < l.length ∧ q.swappedIn = (si == some (n + i)) := by
  induction l with
  | nil => intro n q h; cases h
  | cons c rest ih =>
    intro n q h
    rcases List.mem_cons.mp h with h1 | h2
    · refine ⟨0, by simp, ?_⟩
      rw [h1]
      simp
    · obtain ⟨i, hi, hq⟩ := ih (n + 1) q h2
      refine ⟨i + 1, by simpa using hi, ?_⟩
      rw [hq]
      have h3 : n + 1 + i = n + (i + 1) := by omega
      rw [h3]

/-- Whether a roster slot holds a present contestant with the given
placement (the winner/runner-up test of the bonus loop). -/
def hasPlacement (v : Int) (c : Option Contestant) : Bool :=
  match c with
  | none => false
  | some c => c.placement == some v

theorem countP_scorePicksFrom_zero (cc : Int) (sc : List (String × Int)) (si : Option Nat)
    (l : List (Option Contestant)) : ∀ n, (∀ m, n ≤ m → si ≠ some m) →
    (scorePicksFrom cc sc si n l).countP (fun q => q.swappedOut) = 0 := by
  induction l with
  | nil => intro n _; rfl
  | cons c rest ih =>
    intro n hn
    have hhead : (si == some n) = false := by
      have hne := hn n le_rfl
      cases si with
      | none => rfl
      | some k => exact beq_eq_false_iff_ne.mpr hne
    simp only [scorePicksFrom, List.countP_cons]
    rw [ih (n + 1) (fun m hm => hn m (by omega))]
    simp [hhead]

theorem countP_scorePicksFrom_le_one (cc : Int) (sc : List (String × Int)) (si : Option Nat)
    (l : List (Option Contestant)) : ∀ n,
    (scorePicksFrom cc sc si n l).countP (fun q => q.swappedOut) ≤ 1 := by
  induction l with
  | nil => intro n; exact Nat.zero_le 1
  | cons c rest ih =>
    intro n
    simp only [scorePicksFrom, List.countP_cons]
    cases hhead : (si == some n) with
    | false => simpa [hhead] using ih (n + 1)
    | true =>
      have hsi : si = some n := by
        cases si with
        | none => cases hhead
        | some k => simpa [beq_iff_eq] using congrArg some (by simpa using hhead)
      rw [countP_scorePicksFrom_zero cc sc si rest (n + 1)
        (by intro m hm; rw [hsi]; intro hc; injection hc with hc2; omega)]
      simp [hhead]

theorem countP_scoreAltsFrom_zero (cc : Int) (sc : List (String × Int)) (si : Option Nat)
    (l : List (Option Contestant)) : ∀ n, (∀ m, n ≤ m → si ≠ some m) →
    (scoreAltsFrom cc sc si n l).countP (fun q => q.swappedIn) = 0 := by
  induction l with
  | nil => intro n _; rfl
  | cons c rest ih =>
    intro n hn
    have hhead : (si == some n) = false := by
      have hne := hn n le_rfl
      cases si with
      | none => rfl
      | some k => exact beq_eq_false_iff_ne.mpr hne
    simp only [scoreAltsFrom, List.countP_cons]
    rw [ih (n + 1) (fun m hm => hn m (by omega))]
    simp [hhead]

theorem countP_scoreAltsFrom_le_one (cc : Int) (sc : List (String × Int)) (si : Option Nat)
    (l : List (Option Contestant)) : ∀ n,
    (scoreAltsFrom cc sc si n l).countP (fun q => q.swappedIn) ≤ 1 := by
  induction l with
  | nil => intro n; exact Nat.zero_le 1
  | cons c rest ih =>
    intro n
    simp only [scoreAltsFrom, List.countP_cons]
    cases hhead : (si == some n) with
    | false => simpa [hhead] using ih (n + 1)
    | true =>
      have hsi : si = some n := by
        cases si with
        | none => cases hhead
        | some k => simpa [beq_iff_eq] using congrArg some (by simpa using hhead)
      rw [countP_scoreAltsFrom_zero cc sc si rest (n + 1)
        (by intro m hm; rw [hsi]; intro hc; injection hc with hc2; omega)]
      simp [hhead]

theorem sumActivePicks_foldl (l : List ScoredPick) : ∀ init : Int,
    l.foldl (fun s p => if p.swappedOut then s else s + p.total) init =
      init + ((l.filter (fun p => !p.swappedOut)).map (fun p => p.total)).sum := by
  induction l with
  | nil => intro init; simp
  | cons p rest ih =>
    intro init
    cases hp : p.swappedOut with
    | true => simp [List.foldl_cons, List.filter_cons, hp, ih]
    | false => simp [List.foldl_cons, List.filter_cons, hp, ih, add_assoc]

theorem sumActivePicks_eq (l : List ScoredPick) :
    sumActivePicks l = ((l.filter (fun p => !p.swappedOut)).map (fun p => p.total)).sum := by
  rw [sumActivePicks, sumActivePicks_foldl]
  omega

theorem sumActiveAlts_foldl (l : List ScoredAlt) : ∀ init : Int,
    l.foldl (fun s a => if a.swappedIn then s + a.total else s) init =
      init + ((l.filter (fun a => a.swappedIn)).map (fun a => a.total)).sum := by
  induction l with
  | nil => intro init; simp
  | cons a rest ih =>
    intro init
    cases ha : a.swappedIn with
    | false => simp [List.foldl_cons, List.filter_cons, ha, ih]
    | true => simp [List.foldl_cons, List.filter_cons, ha, ih, add_assoc]

theorem sumActiveAlts_eq (l : List ScoredAlt) :
    sumActiveAlts l = ((l.filter (fun a => a.swappedIn)).map (fun a => a.total)).sum := by
  rw [sumActiveAlts, sumActiveAlts_foldl]
  omega

theorem insertStanding_perm (x : Standing) (l : List Standing) :
    (insertStanding x l).Perm (x :: l) := by
  induction l with
  | nil => exact List.Perm.refl _
  | cons y ys ih =>
    simp only [insertStanding]
    split_ifs with h
    · exact List.Perm.refl _
    · exact (ih.cons y).trans (List.Perm.swap x y ys)

theorem sortStandings_perm (l : List Standing) : (sortStandings l).Perm l := by
  induction l with
  | nil => exact List.Perm.refl _
  | cons x xs ih => exact (insertStanding_perm x (sortStandings xs)).trans (ih.cons x)

theorem insertStanding_pairwise (x : Standing) (l : List Standing)
    (h : l.Pairwise (fun a b => b.total ≤ a.total)) :
    (insertStanding x l).Pairwise (fun a b => b.total ≤ a.total) := by
  induction l with
  | nil => simp [insertStanding]
  | cons y ys ih =>
    obtain ⟨hy, hys⟩ := List.pairwise_cons.mp h
    simp only [insertStanding]
    split_ifs with hle
    · refine List.pairwise_cons.mpr ⟨?_, h⟩
      intro b hb
      rcases List.mem_cons.mp hb with hb1 | hb2
      · rw [hb1]; exact hle
      · have := hy b hb2; omega
    · refine List.pairwise_cons.mpr ⟨?_, ih hys⟩
      intro b hb
      rcases List.mem_cons.mp ((insertStanding_perm x ys).mem_iff.mp hb) with hb1 | hb2
      · rw [hb1]; omega
      · exact hy b hb2

theorem sortStandings_pairwise (l : List Standing) :
    (sortStandings l).Pairwise (fun a b => b.total ≤ a.total) := by
  induction l with
  | nil => exact List.Pairwise.nil
  | cons x xs ih => exact insertStanding_pairwise x (sortStandings xs) ih

theorem insertStanding_filter (x : Standing) (l : List Standing) (t : Int) :
    (insertStanding x l).filter (fun s => s.total == t) =
      (x :: l).filter (fun s => s.total == t) := by
  induction l with
  | nil => rfl
  | cons y ys ih =>
    simp only [insertStanding]
    split_ifs with hle
    · rfl
    · by_cases px : x.total = t <;> by_cases py : y.total = t
      · exfalso; omega
      · simp [List.filter_cons, px, py, ih]
      · simp [List.filter_cons, px, py, ih]
      · simp [List.filter_cons, px, py, ih]

theorem sortStandings_filter (l : List Standing) (t : Int) :
    (sortStandings l).filter (fun s => s.total == t) =
      l.filter (fun s => s.total == t) := by
  induction l with
  | nil => rfl
  | cons x xs ih =>
    show (insertStanding x (sortStandings xs)).filter _ = _
    rw [insertStanding_filter]
    by_cases px : x.total = t
    · simp [List.filter_cons, px, ih]
    · simp [List.filter_cons, px, ih]

theorem bonusLoop_foldl (sc : List (String × Int)) (l : List (Option Contestant)) :
    ∀ wr : Int × Int, l.foldl (bonusStep sc) wr =
      ((if l.any (fun c => hasPlacement 1 c && truthyNum (sc.lookup "winnerBonus"))
          then (sc.lookup "winnerBonus").getD 0 else wr.1),
       (if l.any (fun c => hasPlacement 2 c && truthyNum (sc.lookup "runnerUpBonus"))
          then (sc.lookup "runnerUpBonus").getD 0 else wr.2)) := by
  induction l with
  | nil => intro wr; simp
  | cons c rest ih =>
    intro wr
    rw [List.foldl_cons, ih]
    cases c with
    | none => simp [bonusStep, hasPlacement]
    | some d =>
      by_cases hW : (d.placement == some 1 && truthyNum (sc.lookup "winnerBonus")) = true <;>
        by_cases hR : (d.placement == some 2 && truthyNum (sc.lookup "runnerUpBonus")) = true <;>
        simp [bonusStep, hasPlacement, hW, hR]

theorem bonusLoop_eq (sc : List (String × Int)) (l : List (Option Contestant)) :
    bonusLoop sc l =
      ((if l.any (fun c => hasPlacement 1 c && truthyNum (sc.lookup "winnerBonus"))
          then (sc.lookup "winnerBonus").getD 0 else 0),
       (if l.any (fun c => hasPlacement 2 c && truthyNum (sc.lookup "runnerUpBonus"))
          then (sc.lookup "runnerUpBonus").getD 0 else 0)) :=
  bonusLoop_foldl sc l (0, 0)

theorem any_and_const (l : List (Option Contestant)) (p : Option Contestant → Bool) (t : Bool) :
    l.any (fun c => p c && t) = (t && l.any p) := by
  cases t with
  | false => simp
  | true => simp

theorem bonusPts_foldl (sc : List (String × Int)) (bs : List (String × Int)) :
    ∀ init : Int,
    bs.foldl
      (fun total kv =>
        if truthyNum (sc.lookup kv.1) then total + kv.2 * ((sc.lookup kv.1).getD 0)
        else total)
      init =
    init + (bs.map (fun kv => kv.2 * ((sc.lookup kv.1).getD 0))).sum := by
  induction bs with
  | nil => intro init; simp
  | cons kv rest ih =>
    intro init
    cases htr : truthyNum (sc.lookup kv.1) with
    | true => simp [List.foldl_cons, htr, ih, add_assoc]
    | false =>
      have hz : (sc.lookup kv.1).getD 0 = 0 := by
        cases hl : sc.lookup kv.1 with
        | none => rfl
        | some v =>
          rw [hl] at htr
          simp only [truthyNum, bne_eq_false_iff_eq] at htr
          simp [htr]
      simp [List.foldl_cons, htr, ih, hz]

theorem mem_computeStandings (season : Season) (contestants : List Contestant)
    (picks : List Player) (s : Standing) :
    s ∈ computeStandings season contestants picks ↔
      ∃ p ∈ picks, s = scorePlayer season contestants p := by
  rw [computeStandings, (sortStandings_perm _).mem_iff, List.mem_map]
  constructor
  · rintro ⟨p, hp, hs⟩; exact ⟨p, hp, hs.symm⟩
  · rintro ⟨p, hp, hs⟩; exact ⟨p, hp, hs.symm⟩

theorem scorePlayer_picks (season : Season) (contestants : List Contestant) (player : Player) :
    (scorePlayer season contestants player).picks =
      scorePicksFrom season.contestantCount season.scoring
        ((findSwap season.contestantCount season.scoring
          (pickContestantsOf contestants player) (altContestantsOf contestants player)).map
            (fun p => p.1))
        0 (pickContestantsOf contestants player) := rfl

theorem scorePlayer_alternates (season : Season) (contestants : List Contestant)
    (player : Player) :
    (scorePlayer season contestants player).alternates =
      scoreAltsFrom season.contestantCount season.scoring
        ((findSwap season.contestantCount season.scoring
          (pickContestantsOf contestants player) (altContestantsOf contestants player)).map
            (fun p => p.2))
        0 (altContestantsOf contestants player) := rfl

theorem scorePlayer_total (season : Season) (contestants : List Contestant) (player : Player) :
    (scorePlayer season contestants player).total =
      sumActivePicks (scorePlayer season contestants player).picks
        + sumActiveAlts (scorePlayer season contestants player).alternates
        + (scorePlayer season contestants player).winnerBonus
        + (scorePlayer season contestants player).runnerUpBonus := rfl

theorem scorePlayer_winnerBonus (season : Season) (contestants : List Contestant)
    (player : Player) :
    (scorePlayer season contestants player).winnerBonus =
      (bonusLoop season.scoring
        (activeContestants (scorePlayer season contestants player).picks
          (scorePlayer season contestants player).alternates)).1 := rfl

theorem scorePlayer_runnerUpBonus (season : Season) (contestants : List Contestant)
    (player : Player) :
    (scorePlayer season contestants player).runnerUpBonus =
      (bonusLoop season.scoring
        (activeContestants (scorePlayer season contestants player).picks
          (scorePlayer season contestants player).alternates)).2 := rfl

theorem getD_mem_of_lt {α : Type} (l : List α) (d : α) (k : Nat) (h : k < l.length) :
    l.getD k d ∈ l := by
  rw [List.getD_eq_getElem _ _ h]
  exact List.getElem_mem h

theorem findSwap_some_char (cc : Int) (sc : List (String × Int))
    (pickCs altCs : List (Option Contestant)) (w a : Nat)
    (h : findSwap cc sc pickCs altCs = some (w, a)) :
    isSwapTargetAt cc pickCs w ∧ a < altCs.length ∧
    totalPts cc sc (pickCs.getD w none) < totalPts cc sc (altCs.getD a none) ∧
    (∀ b, b < a →
      ¬ totalPts cc sc (pickCs.getD w none) < totalPts cc sc (altCs.getD b none)) := by
  rw [findSwap] at h
  split_ifs at h with hemp
  rw [findWorst_eq] at h
  cases hS : swapTargetSpec cc pickCs with
  | none => simp only [hS] at h; cases h
  | some jp =>
    obtain ⟨w0, p0⟩ := jp
    simp only [hS] at h
    cases hA : altSearch cc sc (pickCs.getD w0 none) 0 altCs with
    | none => simp only [hA] at h; cases h
    | some a0 =>
      simp only [hA, Option.some.injEq, Prod.mk.injEq] at h
      obtain ⟨hw, ha⟩ := h
      subst hw; subst ha
      obtain ⟨d, hd, hdlen, hdP, hdfirst⟩ := altSearch_some cc sc _ altCs 0 a0 hA
      have hd0 : a0 = d := by omega
      subst hd0
      exact ⟨isSwapTargetAt_of_spec cc pickCs w0 p0 hS, hdlen, hdP, hdfirst⟩

theorem findSwap_none_char (cc : Int) (sc : List (String × Int))
    (pickCs altCs : List (Option Contestant))
    (h : findSwap cc sc pickCs altCs = none) :
    altCs = [] ∨ (∀ c ∈ pickCs, isEliminated c = false) ∨
    (∃ w, isSwapTargetAt cc pickCs w ∧
      ∀ alt ∈ altCs, ¬ totalPts cc sc (pickCs.getD w none) < totalPts cc sc alt) := by
  rw [findSwap] at h
  split_ifs at h with hemp
  · exact Or.inl (List.isEmpty_iff.mp hemp)
  · rw [findWorst_eq] at h
    cases hS : swapTargetSpec cc pickCs with
    | none => exact Or.inr (Or.inl ((swapTargetSpec_none_iff cc pickCs).mp hS))
    | some jp =>
      obtain ⟨w0, p0⟩ := jp
      simp only [hS] at h
      cases hA : altSearch cc sc (pickCs.getD w0 none) 0 altCs with
      | none =>
        refine Or.inr (Or.inr ⟨w0, isSwapTargetAt_of_spec cc pickCs w0 p0 hS, ?_⟩)
        exact (altSearch_none_iff cc sc _ altCs 0).mp hA
      | some a0 => simp only [hA] at h; cases h

theorem exists_swapTarget_iff (cc : Int) (pickCs : List (Option Contestant)) :
    (∃ w, isSwapTargetAt cc pickCs w) ↔ ∃ c ∈ pickCs, isEliminated c = true := by
  constructor
  · rintro ⟨w, hlen, hE, -, -⟩
    exact ⟨pickCs.getD w none, getD_mem_of_lt pickCs none w hlen, hE⟩
  · rintro ⟨c, hc, hE⟩
    cases hS : swapTargetSpec cc pickCs with
    | none =>
      have := (swapTargetSpec_none_iff cc pickCs).mp hS c hc
      rw [hE] at this
      cases this
    | some jp =>
      obtain ⟨w, p⟩ := jp
      exact ⟨w, isSwapTargetAt_of_spec cc pickCs w p hS⟩

theorem findSwap_isSome_iff (cc : Int) (sc : List (String × Int))
    (pickCs altCs : List (Option Contestant)) :
    (findSwap cc sc pickCs altCs).isSome = true ↔
      ∃ w, isSwapTargetAt cc pickCs w ∧
        ∃ b, b < altCs.length ∧
          totalPts cc sc (pickCs.getD w none) < totalPts cc sc (altCs.getD b none) := by
  constructor
  · intro h
    obtain ⟨wa, hwa⟩ := Option.isSome_iff_exists.mp h
    obtain ⟨w, a⟩ := wa
    obtain ⟨hT, halen, hP, -⟩ := findSwap_some_char cc sc pickCs altCs w a hwa
    exact ⟨w, hT, a, halen, hP⟩
  · rintro ⟨w, hT, b, hblen, hP⟩
    cases hF : findSwap cc sc pickCs altCs with
    | some wa => rfl
    | none =>
      exfalso
      rcases findSwap_none_char cc sc pickCs altCs hF with h1 | h2 | ⟨w0, hw0, hall⟩
      · rw [h1] at hblen; cases hblen
      · have hmem := getD_mem_of_lt pickCs none w hT.1
        have := h2 _ hmem
        rw [hT.2.1] at this
        cases this
      · have hw := isSwapTargetAt_unique cc pickCs w w0 hT hw0
        subst hw
        exact hall _ (getD_mem_of_lt altCs none b hblen) hP

theorem pickCs_getD (contestants : List Contestant) (player : Player) (i : Nat)
    (h : i < player.picks.length) :
    (pickContestantsOf contestants player).getD i none =
      contestantLookup contestants (player.picks.getD i "") := by
  have h2 : i < (pickContestantsOf contestants player).length := by
    simpa [pickContestantsOf] using h
  rw [List.getD_eq_getElem _ _ h2, List.getD_eq_getElem _ _ h]
  simp [pickContestantsOf]

/-!
The claims, one theorem each.
-/

/-- C6: placementPoints equals contestantCount + 1 - placement when the
contestant exists and has a non-null placement, and 0 when the contestant
is absent or the placement is null; the winner (placement 1) scores
contestantCount and the first-eliminated contestant (placement =
contestantCount) scores 1. -/
theorem placement_points_formula (cc : Int) (c : Contestant) (p : Int) :
    placementPts cc none = 0 ∧
    (c.placement = none → placementPts cc (some c) = 0) ∧
    (c.placement = some p → placementPts cc (some c) = cc + 1 - p) ∧
    (c.placement = some 1 → placementPts cc (some c) = cc) ∧
    (c.placement = some cc → placementPts cc (some c) = 1) := by
  refine ⟨rfl, ?_, ?_, ?_, ?_⟩ <;> intro h <;> simp [placementPts, h]

/-- Witness for C6 at contestantCount 5 and placement 2. -/
theorem placement_points_formula_witness :
    placementPts 5 (some { name := "x", placement := some 2, bonuses := none }) = 5 + 1 - 2 :=
  (placement_points_formula 5 { name := "x", placement := some 2, bonuses := none } 2).2.2.1 rfl

/-- C7: bonusPoints is 0 for an absent contestant or absent tally, and
otherwise sums count * scoring[key] over the tally entries, with keys not
present in the scoring table contributing zero (never an error). -/
theorem bonus_points_formula (sc : List (String × Int)) (c : Contestant)
    (bs : List (String × Int)) :
    bonusPts sc none = 0 ∧
    (c.bonuses = none → bonusPts sc (some c) = 0) ∧
    (c.bonuses = some bs →
      bonusPts sc (some c) = (bs.map (fun kv => kv.2 * ((sc.lookup kv.1).getD 0))).sum) := by
  refine ⟨rfl, ?_, ?_⟩
  · intro h
    simp [bonusPts, h]
  · intro h
    simp only [bonusPts, h]
    rw [bonusPts_foldl]
    omega

/-- Witness for C7: a tally with one recognized and one unrecognized key. -/
theorem bonus_points_formula_witness :
    bonusPts [("immunityWin", 2)]
        (some { name := "x", placement := none,
                bonuses := some [("immunityWin", 3), ("mysteryKey", 4)] }) =
      ([(("immunityWin", 3) : String × Int), ("mysteryKey", 4)].map
        (fun kv => kv.2 * (([(("immunityWin", 2) : String × Int)].lookup kv.1).getD 0))).sum :=
  (bonus_points_formula [("immunityWin", 2)]
    { name := "x", placement := none, bonuses := some [("immunityWin", 3), ("mysteryKey", 4)] }
    [("immunityWin", 3), ("mysteryKey", 4)]).2.2 rfl

/-- C1: every Standing's total equals the sum of the totals of the
non-swapped-out picks, plus the totals of the swapped-in alternates, plus
the awarded winner and runner-up bonuses, exactly. -/
theorem total_decomposition (season : Season) (contestants : List Contestant)
    (picks : List Player) (s : Standing)
    (hs : s ∈ computeStandings season contestants picks) :
    s.total = ((s.picks.filter (fun p => !p.swappedOut)).map (fun p => p.total)).sum
      + ((s.alternates.filter (fun a => a.swappedIn)).map (fun a => a.total)).sum
      + s.winnerBonus + s.runnerUpBonus := by
  obtain ⟨p, hp, rfl⟩ := (mem_computeStandings season contestants picks s).mp hs
  rw [scorePlayer_total, sumActivePicks_eq, sumActiveAlts_eq]

/-- C4: the standings list is sorted in descending order of total, and for
every total value the standings carrying it appear in exactly the order in
which the corresponding submissions were scored (stable sort). -/
theorem standings_sorted_stable (season : Season) (contestants : List Contestant)
    (picks : List Player) :
    (computeStandings season contestants picks).Pairwise (fun a b => b.total ≤ a.total) ∧
    ∀ t : Int, (computeStandings season contestants picks).filter (fun s => s.total == t) =
      (picks.map (scorePlayer season contestants)).filter (fun s => s.total == t) := by
  exact ⟨sortStandings_pairwise _, fun t => sortStandings_filter _ t⟩

/-- C8: every Standing has at most one swapped-out pick and at most one
swapped-in alternate, and a player with no alternates has no pick swapped
out at all. -/
theorem at_most_one_swap (season : Season) (contestants : List Contestant)
    (picks : List Player) (s : Standing)
    (hs : s ∈ computeStandings season contestants picks) :
    s.picks.countP (fun q => q.swappedOut) ≤ 1 ∧
    s.alternates.countP (fun q => q.swappedIn) ≤ 1 ∧
    (s.alternates = [] → ∀ q ∈ s.picks, q.swappedOut = false) := by
  obtain ⟨p, hp, rfl⟩ := (mem_computeStandings season contestants picks s).mp hs
  refine ⟨?_, ?_, ?_⟩
  · rw [scorePlayer_picks]
    exact countP_scorePicksFrom_le_one _ _ _ _ 0
  · rw [scorePlayer_alternates]
    exact countP_scoreAltsFrom_le_one _ _ _ _ 0
  · intro halt q hq
    have haltCs : altContestantsOf contestants p = [] := by
      have hlen := scoreAltsFrom_length season.contestantCount season.scoring
        ((findSwap season.contestantCount season.scoring (pickContestantsOf contestants p)
          (altContestantsOf contestants p)).map (fun q => q.2)) (altContestantsOf contestants p) 0
      rw [← scorePlayer_alternates, halt] at hlen
      exact List.length_eq_zero.mp hlen.symm
    rw [scorePlayer_picks, haltCs] at hq
    have hswap : findSwap season.contestantCount season.scoring
        (pickContestantsOf contestants p) [] = none := by
      rw [findSwap]
      simp
    rw [hswap] at hq
    obtain ⟨i, hi, hqi⟩ := mem_scorePicksFrom season.contestantCount season.scoring
      none (pickContestantsOf contestants p) 0 q (by simpa using hq)
    rw [hqi]
    rfl

/-- C5: the winner bonus awarded is scoring.winnerBonus exactly when the
key is configured truthy and some active contestant has placement 1, else
0; symmetrically for the runner-up bonus with placement 2; the two awards
are computed independently from the same active roster. -/
theorem winner_runner_bonus_rule (season : Season) (contestants : List Contestant)
    (picks : List Player) (s : Standing)
    (hs : s ∈ computeStandings season contestants picks) :
    s.winnerBonus =
      (if truthyNum (season.scoring.lookup "winnerBonus")
          && (activeContestants s.picks s.alternates).any (hasPlacement 1)
        then (season.scoring.lookup "winnerBonus").getD 0 else 0) ∧
    s.runnerUpBonus =
      (if truthyNum (season.scoring.lookup "runnerUpBonus")
          && (activeContestants s.picks s.alternates).any (hasPlacement 2)
        then (season.scoring.lookup "runnerUpBonus").getD 0 else 0) := by
  obtain ⟨p, hp, rfl⟩ := (mem_computeStandings season contestants picks s).mp hs
  rw [scorePlayer_winnerBonus, scorePlayer_runnerUpBonus, bonusLoop_eq]
  rw [any_and_const, any_and_const]
  constructor
  · rw [Bool.and_comm]
  · rw [Bool.and_comm]

/-- C9: an unknown pick or alternate name resolves to a null contestant
scoring 0 everywhere; such a pick is never the swap target and stays
unswapped; the output is a permutation of one Standing per submission, so
every submitted player appears exactly once. -/
theorem unknown_names_harmless (season : Season) (contestants : List Contestant)
    (picks : List Player) :
    totalPts season.contestantCount season.scoring none = 0 ∧
    placementPts season.contestantCount none = 0 ∧
    bonusPts season.scoring none = 0 ∧
    (computeStandings season contestants picks).Perm
      (picks.map (scorePlayer season contestants)) ∧
    (computeStandings season contestants picks).length = picks.length ∧
    (∀ player ∈ picks, ∀ i, i < player.picks.length →
      contestantLookup contestants (player.picks.getD i "") = none →
      ((scorePlayer season contestants player).picks.getD i default).total = 0 ∧
      ((scorePlayer season contestants player).picks.getD i default).swappedOut = false) := by
  refine ⟨rfl, rfl, rfl, sortStandings_perm _, ?_, ?_⟩
  · rw [computeStandings, (sortStandings_perm _).length_eq, List.length_map]
  · intro player hp i hi hnone
    have hi2 : i < (pickContestantsOf contestants player).length := by
      simpa [pickContestantsOf] using hi
    have hgd : (pickContestantsOf contestants player).getD i none = none := by
      rw [pickCs_getD contestants player i hi]
      exact hnone
    rw [scorePlayer_picks, scorePicksFrom_getD _ _ _ _ 0 i hi2, hgd]
    refine ⟨rfl, ?_⟩
    cases hF : findSwap season.contestantCount season.scoring
        (pickContestantsOf contestants player) (altContestantsOf contestants player) with
    | none => rfl
    | some wa =>
      obtain ⟨w, a⟩ := wa
      obtain ⟨hT, -, -, -⟩ := findSwap_some_char _ _ _ _ w a hF
      have hE := hT.2.1
      have hwne : w ≠ i := by
        intro hwi
        rw [hwi, hgd] at hE
        cases hE
      show ((some w : Option Nat) == some (0 + i)) = false
      refine beq_eq_false_iff_ne.mpr ?_
      intro hc
      injection hc with hc2
      omega

/-- C2: the swap selector picks as target the eliminated pick with the
lowest placement points (earliest submission position on ties), marks as
swapped in the first alternate in submission order whose total strictly
exceeds the target's total, and in every no-swap situation (no alternates,
no eliminated pick, or no alternate strictly better than the target) marks
nothing. -/
theorem swap_selector_rule (season : Season) (contestants : List Contestant)
    (player : Player) :
    (∀ w a, findSwap season.contestantCount season.scoring
        (pickContestantsOf contestants player) (altContestantsOf contestants player) =
          some (w, a) →
      isSwapTargetAt season.contestantCount (pickContestantsOf contestants player) w ∧
      a < (altContestantsOf contestants player).length ∧
      totalPts season.contestantCount season.scoring
          ((pickContestantsOf contestants player).getD w none) <
        totalPts season.contestantCount season.scoring
          ((altContestantsOf contestants player).getD a none) ∧
      (∀ b, b < a →
        ¬ totalPts season.contestantCount season.scoring
            ((pickContestantsOf contestants player).getD w none) <
          totalPts season.contestantCount season.scoring
            ((altContestantsOf contestants player).getD b none)) ∧
      (∀ i, i < (pickContestantsOf contestants player).length →
        ((scorePlayer season contestants player).picks.getD i default).swappedOut =
          decide (i = w)) ∧
      (∀ j, j < (altContestantsOf contestants player).length →
        ((scorePlayer season contestants player).alternates.getD j default).swappedIn =
          decide (j = a))) ∧
    (findSwap season.contestantCount season.scoring
        (pickContestantsOf contestants player) (altContestantsOf contestants player) = none →
      (altContestantsOf contestants player = [] ∨
       (∀ c ∈ pickContestantsOf contestants player, isEliminated c = false) ∨
       (∀ w, isSwapTargetAt season.contestantCount (pickContestantsOf contestants player) w →
         ∀ alt ∈ altContestantsOf contestants player,
           ¬ totalPts season.contestantCount season.scoring
               ((pickContestantsOf contestants player).getD w none) <
             totalPts season.contestantCount season.scoring alt)) ∧
      (∀ q ∈ (scorePlayer season contestants player).picks, q.swappedOut = false) ∧
      (∀ q ∈ (scorePlayer season contestants player).alternates, q.swappedIn = false)) := by
  constructor
  · intro w a hF
    obtain ⟨hT, halen, hP, hfirst⟩ :=
      findSwap_some_char season.contestantCount season.scoring _ _ w a hF
    refine ⟨hT, halen, hP, hfirst, ?_, ?_⟩
    · intro i hi
      rw [scorePlayer_picks, scorePicksFrom_getD _ _ _ _ 0 i hi, hF]
      show ((some w : Option Nat) == some (0 + i)) = decide (i = w)
      by_cases hiw : i = w
      · subst hiw
        simp
      · simp only [decide_eq_false hiw, beq_eq_false_iff_ne, ne_eq, Option.some.injEq]
        omega
    · intro j hj
      rw [scorePlayer_alternates, scoreAltsFrom_getD _ _ _ _ 0 j hj, hF]
      show ((some a : Option Nat) == some (0 + j)) = decide (j = a)
      by_cases hja : j = a
      · subst hja
        simp
      · simp only [decide_eq_false hja, beq_eq_false_iff_ne, ne_eq, Option.some.injEq]
        omega
  · intro hF
    refine ⟨?_, ?_, ?_⟩
    · rcases findSwap_none_char season.contestantCount season.scoring _ _ hF with
        h1 | h2 | ⟨w0, hw0, hall⟩
      · exact Or.inl h1
      · exact Or.inr (Or.inl h2)
      · refine Or.inr (Or.inr ?_)
        intro w hw alt halt
        have := isSwapTargetAt_unique season.contestantCount
          (pickContestantsOf contestants player) w w0 hw hw0
        subst this
        exact hall alt halt
    · intro q hq
      rw [scorePlayer_picks, hF] at hq
      obtain ⟨i, hi, hqi⟩ := mem_scorePicksFrom season.contestantCount season.scoring
        none (pickContestantsOf contestants player) 0 q (by simpa using hq)
      rw [hqi]
      rfl
    · intro q hq
      rw [scorePlayer_alternates, hF] at hq
      obtain ⟨j, hj, hqj⟩ := mem_scoreAltsFrom season.contestantCount season.scoring
        none (altContestantsOf contestants player) 0 q (by simpa using hq)
      rw [hqj]
      rfl

/-- C3 (amended): a swap occurs iff a swap target exists (an eliminated
pick of minimal placement points, earliest on ties) and some alternate's
total strictly exceeds the target's total; a target exists iff some pick
is eliminated; and the selected alternate is the first in submission order
strictly exceeding the target. -/
theorem swap_monotonicity_amended (season : Season) (contestants : List Contestant)
    (player : Player) :
    ((findSwap season.contestantCount season.scoring (pickContestantsOf contestants player)
        (altContestantsOf contestants player)).isSome = true ↔
      ∃ w, isSwapTargetAt season.contestantCount (pickContestantsOf contestants player) w ∧
        ∃ b, b < (altContestantsOf contestants player).length ∧
          totalPts season.contestantCount season.scoring
              ((pickContestantsOf contestants player).getD w none) <
            totalPts season.contestantCount season.scoring
              ((altContestantsOf contestants player).getD b none)) ∧
    ((∃ w, isSwapTargetAt season.contestantCount (pickContestantsOf contestants player) w) ↔
      ∃ c ∈ pickContestantsOf contestants player, isEliminated c = true) ∧
    (∀ w a, findSwap season.contestantCount season.scoring
        (pickContestantsOf contestants player) (altContestantsOf contestants player) =
          some (w, a) →
      totalPts season.contestantCount season.scoring
          ((pickContestantsOf contestants player).getD w none) <
        totalPts season.contestantCount season.scoring
          ((altContestantsOf contestants player).getD a none) ∧
      ∀ b, b < a →
        ¬ totalPts season.contestantCount season.scoring
            ((pickContestantsOf contestants player).getD w none) <
          totalPts season.contestantCount season.scoring
            ((altContestantsOf contestants player).getD b none)) := by
  refine ⟨findSwap_isSome_iff _ _ _ _, exists_swapTarget_iff _ _, ?_⟩
  intro w a hF
  obtain ⟨-, -, hP, hfirst⟩ := findSwap_some_char _ _ _ _ w a hF
  exact ⟨hP, hfirst⟩

/-!
Concrete inputs used by the counterexample and the witnesses.
-/

/-- A three-contestant season: immunity wins are worth 1, the winner bonus
5, the runner-up bonus 2. -/
def seasonX : Season :=
  { contestantCount := 3
    scoring := [("immunityWin", 1), ("winnerBonus", 5), ("runnerUpBonus", 2)] }

/-- Eliminated first (placement 3) but with ten immunity wins: placement
points 1, bonus 10, total 11. -/
def contestantAX : Contestant :=
  { name := "Ada", placement := some 3, bonuses := some [("immunityWin", 10)] }

/-- Runner-up with no bonuses: placement points 2, total 2. -/
def contestantBX : Contestant :=
  { name := "Bob", placement := some 2, bonuses := none }

/-- Still active (placement null) with five immunity wins: total 5. -/
def contestantCX : Contestant :=
  { name := "Cal", placement := none, bonuses := some [("immunityWin", 5)] }

/-- The roster of the three contestants above. -/
def rosterX : List Contestant := [contestantAX, contestantBX, contestantCX]

/-- Picks Ada and Bob (both eliminated), alternate Cal. -/
def playerX : Player := { name := "pat", picks := ["Ada", "Bob"], alternates := ["Cal"] }

/-- Picks only Bob, alternate Cal. -/
def playerY : Player := { name := "quin", picks := ["Bob"], alternates := ["Cal"] }

/-- The single standing computed for playerY. -/
def standingY : Standing := (computeStandings seasonX rosterX [playerY]).getD 0 default

/-- Counterexample to C3 as stated: for playerX an eliminated pick exists,
and the alternate's total (5) strictly exceeds the total (2) of the
eliminated pick with the lowest total (Bob, index 1), yet the code performs
no swap, because its swap target is the pick with the lowest placement
points (Ada, index 0, total 11), not the one with the lowest total. -/
theorem swap_monotonicity_counterexample :
    findSwap seasonX.contestantCount seasonX.scoring
        (pickContestantsOf rosterX playerX) (altContestantsOf rosterX playerX) = none ∧
    (∀ q ∈ (scorePlayer seasonX rosterX playerX).picks, q.swappedOut = false) ∧
    (∃ i, i < (pickContestantsOf rosterX playerX).length ∧
      isEliminated ((pickContestantsOf rosterX playerX).getD i none) = true ∧
      (∀ k, k < (pickContestantsOf rosterX playerX).length →
        isEliminated ((pickContestantsOf rosterX playerX).getD k none) = true →
        totalPts seasonX.contestantCount seasonX.scoring
            ((pickContestantsOf rosterX playerX).getD i none) ≤
          totalPts seasonX.contestantCount seasonX.scoring
            ((pickContestantsOf rosterX playerX).getD k none)) ∧
      (∃ b, b < (altContestantsOf rosterX playerX).length ∧
        totalPts seasonX.contestantCount seasonX.scoring
            ((pickContestantsOf rosterX playerX).getD i none) <
          totalPts seasonX.contestantCount seasonX.scoring
            ((altContestantsOf rosterX playerX).getD b none))) := by
  refine ⟨by decide, by decide, 1, by decide, by decide, by decide, 0, by decide, by decide⟩

/-- C10: a not-yet-eliminated alternate is eligible to be swapped in: for
playerY the alternate Cal has null placement and bonus points 5 strictly
above the swap target's total 2, and is marked swappedIn while the
eliminated pick Bob is marked swappedOut. -/
theorem active_alternate_swappable :
    (standingY.alternates.getD 0 default).swappedIn = true ∧
    (standingY.alternates.getD 0 default).contestant = some contestantCX ∧
    contestantCX.placement = none ∧
    (standingY.alternates.getD 0 default).bonus = 5 ∧
    (standingY.picks.getD 0 default).swappedOut = true ∧
    (standingY.picks.getD 0 default).total = 2 ∧
    (standingY.picks.getD 0 default).total < (standingY.alternates.getD 0 default).bonus := by
  decide

/-- A season configuring only the winner and runner-up bonuses. -/
def seasonW : Season :=
  { contestantCount := 3, scoring := [("winnerBonus", 5), ("runnerUpBonus", 2)] }

/-- A fully placed three-contestant roster. -/
def rosterW : List Contestant :=
  [{ name := "Win", placement := some 1, bonuses := none },
   { name := "Run", placement := some 2, bonuses := none },
   { name := "Out", placement := some 3, bonuses := none }]

/-- Picks the winner and the runner-up, no alternates. -/
def playerW : Player := { name := "wes", picks := ["Win", "Run"], alternates := [] }

/-- The single standing computed for playerW. -/
def standingW : Standing := (computeStandings seasonW rosterW [playerW]).getD 0 default

/-- A submission whose single pick names nobody on the roster. -/
def playerU : Player := { name := "uma", picks := ["Nobody"], alternates := [] }

/-- Witness for C1 on the concrete playerY standing. -/
theorem total_decomposition_witness :
    standingY.total =
      ((standingY.picks.filter (fun p => !p.swappedOut)).map (fun p => p.total)).sum
      + ((standingY.alternates.filter (fun a => a.swappedIn)).map (fun a => a.total)).sum
      + standingY.winnerBonus + standingY.runnerUpBonus :=
  total_decomposition seasonX rosterX [playerY] standingY (by decide)

/-- Witness for C2: for playerY the swap is (0, 0) and pick 0 is marked
swapped out. -/
theorem swap_selector_rule_witness :
    ((scorePlayer seasonX rosterX playerY).picks.getD 0 default).swappedOut =
      decide (0 = 0) :=
  ((swap_selector_rule seasonX rosterX playerY).1 0 0 (by decide)).2.2.2.2.1 0 (by decide)

/-- Witness for C3 (amended): for playerY the swap-occurs condition holds. -/
theorem swap_monotonicity_amended_witness :
    ∃ w, isSwapTargetAt seasonX.contestantCount (pickContestantsOf rosterX playerY) w ∧
      ∃ b, b < (altContestantsOf rosterX playerY).length ∧
        totalPts seasonX.contestantCount seasonX.scoring
            ((pickContestantsOf rosterX playerY).getD w none) <
          totalPts seasonX.contestantCount seasonX.scoring
            ((altContestantsOf rosterX playerY).getD b none) :=
  ((swap_monotonicity_amended seasonX rosterX playerY).1).mp (by decide)

/-- Witness for C4 on a two-player input. -/
theorem standings_sorted_stable_witness :
    (computeStandings seasonX rosterX [playerX, playerY]).Pairwise
      (fun a b => b.total ≤ a.total) ∧
    (computeStandings seasonX rosterX [playerX, playerY]).filter
        (fun s => s.total == (5 : Int)) =
      ([playerX, playerY].map (scorePlayer seasonX rosterX)).filter
        (fun s => s.total == (5 : Int)) :=
  ⟨(standings_sorted_stable seasonX rosterX [playerX, playerY]).1,
   (standings_sorted_stable seasonX rosterX [playerX, playerY]).2 5⟩

/-- Witness for C5 on the concrete playerW standing, where both bonuses are
awarded at once. -/
theorem winner_runner_bonus_rule_witness :
    (standingW.winnerBonus =
      (if truthyNum (seasonW.scoring.lookup "winnerBonus")
          && (activeContestants standingW.picks standingW.alternates).any (hasPlacement 1)
        then (seasonW.scoring.lookup "winnerBonus").getD 0 else 0) ∧
    standingW.runnerUpBonus =
      (if truthyNum (seasonW.scoring.lookup "runnerUpBonus")
          && (activeContestants standingW.picks standingW.alternates).any (hasPlacement 2)
        then (seasonW.scoring.lookup "runnerUpBonus").getD 0 else 0)) ∧
    standingW.winnerBonus = 5 ∧ standingW.runnerUpBonus = 2 :=
  ⟨winner_runner_bonus_rule seasonW rosterW [playerW] standingW (by decide),
   by decide, by decide⟩

/-- Witness for C8 on the concrete playerY standing. -/
theorem at_most_one_swap_witness :
    standingY.picks.countP (fun q => q.swappedOut) ≤ 1 ∧
    standingY.alternates.countP (fun q => q.swappedIn) ≤ 1 ∧
    (standingY.alternates = [] → ∀ q ∈ standingY.picks, q.swappedOut = false) :=
  at_most_one_swap seasonX rosterX [playerY] standingY (by decide)

/-- Witness for C9: playerU's unknown pick scores 0 and is not swapped. -/
theorem unknown_names_harmless_witness :
    ((scorePlayer seasonX rosterX playerU).picks.getD 0 default).total = 0 ∧
    ((scorePlayer seasonX rosterX playerU).picks.getD 0 default).swappedOut = false :=
  (unknown_names_harmless seasonX rosterX [playerU]).2.2.2.2.2 playerU (by decide) 0
    (by decide) (by decide)
